import Mathlib

/-!
Shallow embedding of the MLIR sparse data-flow analysis engine
(`SparseAnalysis.cpp`): the abstract sparse lattice update notification,
the forward sparse driver (`AbstractSparseForwardDataFlowAnalysis`) and the
backward sparse driver (`AbstractSparseBackwardDataFlowAnalysis`).

The IR graph, operation-interface queries, predecessor states and block
liveness are external collaborators of the engine; they are embedded as an
opaque, read-only `Config`.  Lattice elements are keyed by SSA value; the
mutable solver state is a map from values to lattice values.  The
analysis-specific hooks (`visitOperationImpl`, `visitBranchOperand`,
`visitNonControlFlowArgumentsImpl`) can only act on the state through
lattice writes, which is captured by letting them emit lists of write
commands (joins / set-to-entry for the forward driver, meets /
set-to-exit for the backward driver), exactly the facilities the C++
base classes expose to subclasses.
-/

namespace SparseDF

/-- SSA value handle: the key addressing lattice elements. -/
abbrev ValueId := Nat

/-- Operation handle. -/
abbrev OpId := Nat

/-- Block handle. -/
abbrev BlockId := Nat

/-- Identifier of a registered child analysis on the solver. -/
abbrev AnalysisId := Nat

/-- A program point visited by the sparse drivers: an operation or a block
(CFG edges are registered as a point kind but never visited directly). -/
inductive PPoint where
  | op (id : OpId)
  | block (id : BlockId)
deriving DecidableEq, Repr

/-- `PredecessorState`: the set of known predecessor operations of a program
point plus the all-predecessors-known flag.  Owned by the dead-code /
call-graph analysis; read-only for the sparse drivers. -/
structure PredecessorState where
  allKnown : Bool
  known : List OpId
deriving Repr

/-- `SuccessorOperands` of one successor of a branch operation: a count of
operands produced internally by the branch, followed by a contiguous range
(offset + length) of forwarded operands inside the operation's operand
list. -/
structure SuccOperands where
  producedCount : Nat
  first : Nat
  size : Nat
deriving DecidableEq, Repr

/-- A `RegionSuccessor` as seen by the backward driver: the successor region
(`none` encodes the parent operation itself) together with the successor
input values. -/
structure RegionSucc where
  region : Option Nat
  inputs : List ValueId
deriving Repr

/-- Analysis-supplied lattice operations: `join` (forward), `meet`
(backward) and the pessimistic entry / exit values written by
`setToEntryState` / `setToExitState`. -/
structure Lat (L : Type) where
  join : L → L → L
  meet : L → L → L
  entry : L
  exit : L

/-- The solver's sparse lattice state: one lattice value per SSA value. -/
abbrev State (L : Type) := ValueId → L

/-- Point update of the lattice state. -/
def update {L : Type} (s : State L) (tgt : ValueId) (x : L) : State L :=
  fun v => if v = tgt then x else s v

/-- A forward lattice write: `AbstractSparseForwardDataFlowAnalysis::join`
into a target element from a source element, or `setToEntryState` of a
target element. -/
inductive FCmd where
  | fjoin (tgt src : ValueId)
  | fentry (tgt : ValueId)
deriving DecidableEq, Repr

/-- A backward lattice write: `meet` into a target element from a source
element, or `setToExitState` of a target element. -/
inductive BCmd where
  | bmeet (tgt src : ValueId)
  | bexit (tgt : ValueId)
deriving DecidableEq, Repr

/-- One forward write, returning the new state and the `ChangeResult`
reported to `propagateIfChanged` (`true` = `Changed`). -/
def fstep {L : Type} [DecidableEq L] (lat : Lat L) (s : State L) : FCmd → State L × Bool
  | .fjoin tgt src =>
      let nw := lat.join (s tgt) (s src)
      (update s tgt nw, decide (nw ≠ s tgt))
  | .fentry tgt => (update s tgt lat.entry, decide (lat.entry ≠ s tgt))

/-- Apply a sequence of forward writes; the flag is `true` when any write
changed a lattice value. -/
def applyF {L : Type} [DecidableEq L] (lat : Lat L) : List FCmd → State L → State L × Bool
  | [], s => (s, false)
  | c :: cs, s =>
      let a := fstep lat s c
      let b := applyF lat cs a.1
      (b.1, a.2 || b.2)

/-- One backward write. -/
def bstep {L : Type} (lat : Lat L) (s : State L) : BCmd → State L
  | .bmeet tgt src => update s tgt (lat.meet (s tgt) (s src))
  | .bexit tgt => update s tgt lat.exit

/-- Apply a sequence of backward writes. -/
def applyB {L : Type} (lat : Lat L) (cmds : List BCmd) (s : State L) : State L :=
  cmds.foldl (bstep lat) s

/-- Observable action of the backward driver while visiting one operation:
a `meet` of the lattice of operand occurrence `operandIndex` against a
source lattice, a `visitBranchOperand` call on operand occurrence
`operandIndex`, an invocation of the generic transfer function
`visitOperationImpl`, or a `setToExitState` of a target lattice. -/
inductive BEvent where
  | meetEv (operandIndex : Nat) (tgt src : ValueId)
  | branchOperandEv (operandIndex : Nat)
  | implEv
  | exitEv (tgt : ValueId)
deriving DecidableEq, Repr

/-- The read-only environment of both drivers: the IR graph, the
operation-interface queries, the executable (liveness) flags and the
predecessor states supplied by companion analyses, and the
analysis-specific hooks of the concrete subclass. -/
structure Config (L : Type) where
  /-- `op->getResults()`. -/
  opResults : OpId → List ValueId
  /-- `op->getOperands()` / `op->getOpOperands()` (values, position = operand number). -/
  opOperands : OpId → List ValueId
  /-- `op->getBlock()`. -/
  opBlock : OpId → BlockId
  /-- `op->getParentOp()`. -/
  opParent : OpId → OpId
  /-- `op->getSuccessors()`. -/
  opSuccessors : OpId → List BlockId
  /-- `block->getArguments()`. -/
  blockArgs : BlockId → List ValueId
  /-- `block->isEntryBlock()`. -/
  blockIsEntry : BlockId → Bool
  /-- `block->getParentOp()`. -/
  blockParentOp : BlockId → OpId
  /-- `block->getParent()->getRegionNumber()`. -/
  blockRegionNumber : BlockId → Nat
  /-- `block->pred_begin() .. pred_end()`, each with `it.getSuccessorIndex()`. -/
  blockPreds : BlockId → List (BlockId × Nat)
  /-- `block->getTerminator()`. -/
  blockTerminator : BlockId → OpId
  /-- `Executable::isLive()` for a block. -/
  blockLive : BlockId → Bool
  /-- `Executable::isLive()` for the CFG edge (predecessor, successor). -/
  edgeLive : BlockId → BlockId → Bool
  /-- `dyn_cast<RegionBranchOpInterface>` succeeds. -/
  isRegionBranch : OpId → Bool
  /-- `dyn_cast<CallOpInterface>` succeeds. -/
  isCall : OpId → Bool
  /-- `dyn_cast<BranchOpInterface>` succeeds. -/
  isBranch : OpId → Bool
  /-- `dyn_cast<RegionBranchTerminatorOpInterface>` succeeds. -/
  isRegionTerminator : OpId → Bool
  /-- `op->hasTrait<OpTrait::ReturnLike>()`. -/
  isReturnLike : OpId → Bool
  /-- `dyn_cast<CallableOpInterface>` succeeds. -/
  isCallable : OpId → Bool
  /-- `callable.getCallableRegion() == block->getParent()`. -/
  callableRegionIsBlockRegion : BlockId → Bool
  /-- `callable.getCallableRegion()`: `none` encodes a null region, `some
  blocks` the region's block list. -/
  callableRegionBlocks : OpId → Option (List BlockId)
  /-- `call.getArgOperands()`. -/
  callArgOperands : OpId → List ValueId
  /-- `call.resolveCallable(&symbolTable)`: `none` encodes a null result. -/
  resolveCallable : OpId → Option OpId
  /-- The `PredecessorState` anchored at a program point. -/
  predState : PPoint → PredecessorState
  /-- `predecessors->getSuccessorInputs(op)`. -/
  successorInputs : PPoint → OpId → List ValueId
  /-- `branch.getEntrySuccessorOperands(successorIndex)` as a contiguous
  range (offset, length) of the branch operation's operand list. -/
  entrySuccOperandRange : OpId → Option Nat → Nat × Nat
  /-- `regionTerminator.getSuccessorOperands(successorIndex)` as a range of
  the terminator's operand list. -/
  termSuccOperandRange : OpId → Option Nat → Nat × Nat
  /-- `branch.getSuccessorOperands(index)` for an unstructured branch. -/
  succOperands : OpId → Nat → SuccOperands
  /-- Modelled from the spec: `detail::getBranchSuccessorArgument`, whose
  definition is outside the sampled sources — given a branch operation, a
  successor index and an operand number inside that successor's forwarded
  range, the successor block argument the operand is forwarded to, if one
  can be found.  Arguments: branch op, successor index, operand number. -/
  branchSuccArg : OpId → Nat → Nat → Option ValueId
  /-- `branch.getEntrySuccessorRegions(operands, successors)`. -/
  bEntrySuccessors : OpId → List RegionSucc
  /-- `terminator.getSuccessorRegions(operandAttributes, successors)`. -/
  termSuccessors : OpId → List RegionSucc
  /-- `cast<OpResult>(value).getResultNumber()`. -/
  resultNumber : ValueId → Nat
  /-- `cast<BlockArgument>(value).getArgNumber()`. -/
  argNumber : ValueId → Nat
  /-- All operations of the IR under analysis (for enumerating the users of
  a value). -/
  allOps : List OpId
  /-- Subclass hook `visitNonControlFlowArgumentsImpl`, restricted (as in
  the C++ base class) to emitting forward lattice writes.  Arguments:
  region-branch op, lattices being computed, first index, current state. -/
  nonCFHook : OpId → List ValueId → Nat → State L → List FCmd
  /-- Subclass hook `visitOperationImpl` of the forward driver.  Arguments:
  op, operand lattices, result lattices, current state. -/
  opImplF : OpId → List ValueId → List ValueId → State L → List FCmd
  /-- Subclass hook `visitBranchOperand` of the backward driver.
  Arguments: owner op, operand number, current state. -/
  branchOperandHook : OpId → Nat → State L → List BCmd
  /-- Subclass hook `visitOperationImpl` of the backward driver. -/
  opImplB : OpId → List ValueId → List ValueId → State L → List BCmd

variable {L : Type}

/-- The value of operand number `j` of an operation. -/
def opOperandVal (cfg : Config L) (op : OpId) (j : Nat) : ValueId :=
  (cfg.opOperands op).getD j 0

/-- The values of a contiguous operand range (offset, length). -/
def rangeVals (ops : List ValueId) (first n : Nat) : List ValueId :=
  (ops.drop first).take n

/-- `setToEntryState` commands for a list of lattices
(`setAllToEntryStates`). -/
def entryCmds (tgts : List ValueId) : List FCmd :=
  tgts.map .fentry

/-- Join commands pairing source values with target lattices
(`llvm::zip(values, lattices)` + `join`). -/
def zipJoinCmds (srcs tgts : List ValueId) : List FCmd :=
  (srcs.zip tgts).map fun p => .fjoin p.2 p.1

/-- Forward `visitOperation`, call case: join every known return-like
predecessor's operands into the result lattices. -/
def callJoinCmds (cfg : Config L) (resultLattices : List ValueId) (preds : List OpId) : List FCmd :=
  preds.flatMap fun p => zipJoinCmds (cfg.opOperands p) resultLattices

/-- Resolution of the incoming successor operands of one known predecessor
inside the forward `visitRegionSuccessors`: the parent branch op's entry
successor operands if the predecessor is the branch itself, the
terminator's successor operands if it implements
`RegionBranchTerminatorOpInterface`, and unresolvable (`none`) otherwise. -/
def fwdSuccOperands (cfg : Config L) (branchOp : OpId) (succIdx : Option Nat) (p : OpId) :
    Option (List ValueId) :=
  if p = branchOp then
    let r := cfg.entrySuccOperandRange branchOp succIdx
    some (rangeVals (cfg.opOperands branchOp) r.1 r.2)
  else if cfg.isRegionTerminator p then
    let r := cfg.termSuccOperandRange p succIdx
    some (rangeVals (cfg.opOperands p) r.1 r.2)
  else none

/-- Alignment offset and `visitNonControlFlowArgumentsImpl` commands for
one predecessor of the forward `visitRegionSuccessors`: when the successor
input count differs from the lattice count, the first index is recovered
from the first input's result / argument number and the
non-control-flow-argument hook runs. -/
def vrsHook (cfg : Config L) (pt : PPoint) (branchOp : OpId) (lattices : List ValueId)
    (inputs : List ValueId) (s : State L) : Nat × List FCmd :=
  if inputs.length = lattices.length then (0, [])
  else
    let fi := match pt, inputs with
      | .op _, v :: _ => cfg.resultNumber v
      | .block _, v :: _ => cfg.argNumber v
      | _, [] => 0
    (fi, cfg.nonCFHook branchOp lattices fi s)

/-- Forward `visitRegionSuccessors` iteration over the known predecessors
of `pt`: an unresolvable predecessor sets all lattices to the entry state
and stops; a resolved predecessor runs the non-control-flow hook when the
input and lattice counts differ, then joins its successor operands into the
lattices starting at the alignment offset. -/
def vrsF [DecidableEq L] (cfg : Config L) (lat : Lat L) (pt : PPoint) (branchOp : OpId)
    (succIdx : Option Nat) (lattices : List ValueId) :
    List OpId → State L → State L × Bool
  | [], s => (s, false)
  | p :: rest, s =>
      match fwdSuccOperands cfg branchOp succIdx p with
      | none => applyF lat (entryCmds lattices) s
      | some ops =>
          let fh := vrsHook cfg pt branchOp lattices (cfg.successorInputs pt p) s
          let a := applyF lat fh.2 s
          let b := applyF lat (zipJoinCmds ops (lattices.drop fh.1)) a.1
          let c := vrsF cfg lat pt branchOp succIdx lattices rest b.1
          (c.1, a.2 || (b.2 || c.2))

/-- The debug-build assertion guarding the forward
`visitRegionSuccessors`: `assert(predecessors->allPredecessorsKnown())`. -/
def regionSuccAssertF (cfg : Config L) (pt : PPoint) : Bool :=
  (cfg.predState pt).allKnown

/-- Forward `visitRegionSuccessors` with debug-build semantics: the
assertion failure (`"unexpected unresolved region successors"`) is `none`. -/
def vrsFDebug [DecidableEq L] (cfg : Config L) (lat : Lat L) (pt : PPoint) (branchOp : OpId)
    (succIdx : Option Nat) (lattices : List ValueId) (s : State L) :
    Option (State L × Bool) :=
  if regionSuccAssertF cfg pt then
    some (vrsF cfg lat pt branchOp succIdx lattices (cfg.predState pt).known s)
  else none

/-- `AbstractSparseForwardDataFlowAnalysis::visitOperation`. -/
def visitOperationF [DecidableEq L] (cfg : Config L) (lat : Lat L) (op : OpId) (s : State L) :
    State L × Bool :=
  if (cfg.opResults op).isEmpty then (s, false)
  else if !cfg.blockLive (cfg.opBlock op) then (s, false)
  else
    let resultLattices := cfg.opResults op
    if cfg.isRegionBranch op then
      vrsF cfg lat (.op op) op none resultLattices (cfg.predState (.op op)).known s
    else if cfg.isCall op then
      let preds := cfg.predState (.op op)
      if !preds.allKnown then applyF lat (entryCmds resultLattices) s
      else applyF lat (callJoinCmds cfg resultLattices preds.known) s
    else
      applyF lat (cfg.opImplF op (cfg.opOperands op) resultLattices s) s

/-- `SuccessorOperands::operator[]`: `none` encodes the null `Value` of an
internally produced operand. -/
def succOperandAt (cfg : Config L) (term : OpId) (so : SuccOperands) (idx : Nat) :
    Option ValueId :=
  if idx < so.producedCount then none
  else (rangeVals (cfg.opOperands term) so.first so.size).get? (idx - so.producedCount)

/-- Forward `visitBlock`, non-entry case, body for one live predecessor
edge whose terminator implements `BranchOpInterface`: join each forwarded
successor operand into the matching argument lattice; an internally
produced argument is set to the entry state. -/
def predArgCmds (cfg : Config L) (term : OpId) (so : SuccOperands)
    (argLattices : List ValueId) : List FCmd :=
  argLattices.enum.map fun p =>
    match succOperandAt cfg term so p.1 with
    | some operand => .fjoin p.2 operand
    | none => .fentry p.2

/-- Forward `visitBlock` iteration over the predecessors of a non-entry
block: dead edges are skipped; a predecessor terminator without
`BranchOpInterface` sets all argument lattices to the entry state and
stops. -/
def blockPredLoop [DecidableEq L] (cfg : Config L) (lat : Lat L) (b : BlockId)
    (argLattices : List ValueId) :
    List (BlockId × Nat) → State L → State L × Bool
  | [], s => (s, false)
  | pr :: rest, s =>
      if !cfg.edgeLive pr.1 b then blockPredLoop cfg lat b argLattices rest s
      else if cfg.isBranch (cfg.blockTerminator pr.1) then
        let a := applyF lat
          (predArgCmds cfg (cfg.blockTerminator pr.1) (cfg.succOperands (cfg.blockTerminator pr.1) pr.2) argLattices) s
        let c := blockPredLoop cfg lat b argLattices rest a.1
        (c.1, a.2 || c.2)
      else
        applyF lat (entryCmds argLattices) s

/-- `AbstractSparseForwardDataFlowAnalysis::visitBlock`. -/
def visitBlockF [DecidableEq L] (cfg : Config L) (lat : Lat L) (b : BlockId) (s : State L) :
    State L × Bool :=
  if (cfg.blockArgs b).isEmpty then (s, false)
  else if !cfg.blockLive b then (s, false)
  else
    let argLattices := cfg.blockArgs b
    if cfg.blockIsEntry b then
      if cfg.isCallable (cfg.blockParentOp b) && cfg.callableRegionIsBlockRegion b then
        let callsites := cfg.predState (.op (cfg.blockParentOp b))
        if !callsites.allKnown then applyF lat (entryCmds argLattices) s
        else
          applyF lat
            (callsites.known.flatMap fun cs => zipJoinCmds (cfg.callArgOperands cs) argLattices) s
      else if cfg.isRegionBranch (cfg.blockParentOp b) then
        vrsF cfg lat (.block b) (cfg.blockParentOp b) (some (cfg.blockRegionNumber b))
          argLattices (cfg.predState (.block b)).known s
      else
        applyF lat (cfg.nonCFHook (cfg.blockParentOp b) argLattices 0 s) s
    else
      blockPredLoop cfg lat b argLattices (cfg.blockPreds b) s

/-- `AbstractSparseForwardDataFlowAnalysis::visit`, dispatching on the
program point kind. -/
def visitF [DecidableEq L] (cfg : Config L) (lat : Lat L) : PPoint → State L → State L × Bool
  | .op o, s => visitOperationF cfg lat o s
  | .block b, s => visitBlockF cfg lat b s

/-- Run the forward driver over a sequence of dequeued program points; the
flag records whether any visit changed a lattice value. -/
def runF [DecidableEq L] (cfg : Config L) (lat : Lat L) : List PPoint → State L → State L × Bool
  | [], s => (s, false)
  | p :: ps, s =>
      let a := visitF cfg lat p s
      let r := runF cfg lat ps a.1
      (r.1, a.2 || r.2)

/-! ### Backward driver -/

/-- Running bookkeeping of the backward `visitOperation` for one branch-like
operation: the lattice state, the event log, and the `unaccounted` bit-set
over operand numbers. -/
structure BSt (L : Type) where
  s : State L
  log : List BEvent
  unacc : Nat → Bool

/-- One step of a backward meet fold: the triple is (operand number, target
lattice value, source lattice value). -/
def bMeetStep (lat : Lat L) (p : State L × List BEvent) (q : Nat × ValueId × ValueId) :
    State L × List BEvent :=
  (bstep lat p.1 (.bmeet q.2.1 q.2.2), p.2 ++ [.meetEv q.1 q.2.1 q.2.2])

/-- The meet event recorded for one (operand number, target, source) triple. -/
def toMeetEv (q : Nat × ValueId × ValueId) : BEvent :=
  .meetEv q.1 q.2.1 q.2.2

/-- Backward branch case, body for one operand number inside a successor's
forwarded range: clear the operand from the `unaccounted` set, and meet its
lattice with the successor block argument's lattice when
`getBranchSuccessorArgument` finds one. -/
def bResetAndMeet (cfg : Config L) (lat : Lat L) (op : OpId) (succIdx : Nat)
    (st : BSt L) (j : Nat) : BSt L :=
  let un := fun i => if i = j then false else st.unacc i
  match cfg.branchSuccArg op succIdx j with
  | some blockArg =>
      { s := bstep lat st.s (.bmeet (opOperandVal cfg op j) blockArg)
        log := st.log ++ [.meetEv j (opOperandVal cfg op j) blockArg]
        unacc := un }
  | none => { st with unacc := un }

/-- Backward branch case, body for one successor: iterate the operand
numbers of its forwarded range. -/
def bBranchSucc (cfg : Config L) (lat : Lat L) (op : OpId) (st : BSt L)
    (pr : Nat × BlockId) : BSt L :=
  let so := cfg.succOperands op pr.1
  (List.range' so.first so.size).foldl (bResetAndMeet cfg lat op pr.1) st

/-- Backward branch case, scan of all successors starting from a fresh
`unaccounted` set. -/
def bBranchScan (cfg : Config L) (lat : Lat L) (op : OpId) (s : State L) : BSt L :=
  (cfg.opSuccessors op).enum.foldl (bBranchSucc cfg lat op) ⟨s, [], fun _ => true⟩

/-- Route the remaining `unaccounted` operand numbers through
`visitBranchOperand`. -/
def bBranchOperandLoop (cfg : Config L) (lat : Lat L) (op : OpId) :
    List Nat → State L × List BEvent → State L × List BEvent
  | [], p => p
  | i :: is, p =>
      bBranchOperandLoop cfg lat op is
        (applyB lat (cfg.branchOperandHook op i p.1) p.1, p.2 ++ [.branchOperandEv i])

/-- Backward `visitOperation`, unstructured branch case
(`BranchOpInterface`): successor block arguments flow back into the
forwarded operands; operands forwarded to no successor go through
`visitBranchOperand`. -/
def bBranchPath (cfg : Config L) (lat : Lat L) (op : OpId) (s : State L) :
    State L × List BEvent :=
  let st := bBranchScan cfg lat op s
  bBranchOperandLoop cfg lat op
    ((List.range (cfg.opOperands op).length).filter st.unacc) (st.s, st.log)

/-- Backward region-branch case, body for one entry region successor: meet
each entry successor operand with the matching successor input, clearing
the operand from the `unaccounted` set. -/
def bRegionSucc (cfg : Config L) (lat : Lat L) (op : OpId) (st : BSt L)
    (succ : RegionSucc) : BSt L :=
  let r := cfg.entrySuccOperandRange op succ.region
  ((List.range' r.1 r.2).zip succ.inputs).foldl
    (fun st2 p =>
      { s := bstep lat st2.s (.bmeet (opOperandVal cfg op p.1) p.2)
        log := st2.log ++ [.meetEv p.1 (opOperandVal cfg op p.1) p.2]
        unacc := fun i => if i = p.1 then false else st2.unacc i }) st

/-- `AbstractSparseBackwardDataFlowAnalysis::visitRegionSuccessors`. -/
def bRegionBranchPath (cfg : Config L) (lat : Lat L) (op : OpId) (s : State L) :
    State L × List BEvent :=
  let st := (cfg.bEntrySuccessors op).foldl (bRegionSucc cfg lat op) ⟨s, [], fun _ => true⟩
  bBranchOperandLoop cfg lat op
    ((List.range (cfg.opOperands op).length).filter st.unacc) (st.s, st.log)

/-- Backward region-terminator case, body for one region successor of the
terminator. -/
def bTermSucc (cfg : Config L) (lat : Lat L) (term : OpId) (st : BSt L)
    (succ : RegionSucc) : BSt L :=
  let r := cfg.termSuccOperandRange term succ.region
  ((List.range' r.1 r.2).zip succ.inputs).foldl
    (fun st2 p =>
      { s := bstep lat st2.s (.bmeet (opOperandVal cfg term p.1) p.2)
        log := st2.log ++ [.meetEv p.1 (opOperandVal cfg term p.1) p.2]
        unacc := fun i => if i = p.1 then false else st2.unacc i }) st

/-- `AbstractSparseBackwardDataFlowAnalysis::visitRegionSuccessorsFromTerminator`. -/
def bTermPath (cfg : Config L) (lat : Lat L) (term : OpId) (s : State L) :
    State L × List BEvent :=
  let st := (cfg.termSuccessors term).foldl (bTermSucc cfg lat term) ⟨s, [], fun _ => true⟩
  bBranchOperandLoop cfg lat term
    ((List.range (cfg.opOperands term).length).filter st.unacc) (st.s, st.log)

/-- Backward call case with a resolved callable whose region has an entry
block: meet each call operand lattice with the matching entry block
argument lattice of the callee. -/
def callMeetTriples (cfg : Config L) (op : OpId) (b : BlockId) :
    List (Nat × ValueId × ValueId) :=
  ((cfg.blockArgs b).zip (cfg.opOperands op)).enum.map fun q => (q.1, q.2.2, q.2.1)

/-- Backward return-like case, triples for one known call site: pair each
return operand lattice with the matching call result lattice. -/
def returnMeetTriples (cfg : Config L) (op call : OpId) :
    List (Nat × ValueId × ValueId) :=
  ((cfg.opOperands op).zip (cfg.opResults call)).enum.map fun q => (q.1, q.2.1, q.2.2)

/-- Backward return-like case with all call sites known: for every known
call site, meet each operand lattice with the matching result lattice. -/
def bReturnMeets (cfg : Config L) (lat : Lat L) (op : OpId) (calls : List OpId)
    (s : State L) : State L × List BEvent :=
  calls.foldl (fun p call => (returnMeetTriples cfg op call).foldl (bMeetStep lat) p) (s, [])

/-- The meet event log of the backward return-like case with all call
sites known. -/
def returnMeetLog (cfg : Config L) (op : OpId) (calls : List OpId) : List BEvent :=
  calls.flatMap fun call => (returnMeetTriples cfg op call).map toMeetEv

/-- `setAllToExitStates` over the operand lattices of an operation. -/
def bExitAll (cfg : Config L) (lat : Lat L) (op : OpId) (s : State L) :
    State L × List BEvent :=
  (cfg.opOperands op).foldl (fun p v => (bstep lat p.1 (.bexit v), p.2 ++ [.exitEv v])) (s, [])

/-- Replay of an event log over a state: meet and set-to-exit events act on
the state, `visitBranchOperand` and `visitOperationImpl` markers do not. -/
def bReplayEv (lat : Lat L) (s : State L) : BEvent → State L
  | .meetEv _ tgt src => bstep lat s (.bmeet tgt src)
  | .exitEv tgt => bstep lat s (.bexit tgt)
  | .branchOperandEv _ => s
  | .implEv => s

/-- Replay a full event log. -/
def bReplay (lat : Lat L) (evs : List BEvent) (s : State L) : State L :=
  evs.foldl (bReplayEv lat) s

/-- `AbstractSparseBackwardDataFlowAnalysis::visitOperation`, with the
dispatch order of the source: dead block, region branch, unstructured
branch, call with resolved callable, region terminator under a region
branch, return-like under a callable, generic transfer function. -/
def visitOperationB (cfg : Config L) (lat : Lat L) (op : OpId) (s : State L) :
    State L × List BEvent :=
  if !cfg.blockLive (cfg.opBlock op) then (s, [])
  else if cfg.isRegionBranch op then bRegionBranchPath cfg lat op s
  else if cfg.isBranch op then bBranchPath cfg lat op s
  else if cfg.isCall op &&
          (match cfg.resolveCallable op with
           | some c => cfg.isCallable c
           | none => false) then
    match cfg.resolveCallable op with
    | some c =>
        match cfg.callableRegionBlocks c with
        | some (b :: _) => (callMeetTriples cfg op b).foldl (bMeetStep lat) (s, [])
        | _ => (s, [])
    | none => (s, [])
  else if cfg.isRegionTerminator op && cfg.isRegionBranch (cfg.opParent op) then
    bTermPath cfg lat op s
  else if cfg.isReturnLike op && cfg.isCallable (cfg.opParent op) then
    if (cfg.predState (.op (cfg.opParent op))).allKnown then
      bReturnMeets cfg lat op (cfg.predState (.op (cfg.opParent op))).known s
    else bExitAll cfg lat op s
  else
    (applyB lat (cfg.opImplB op (cfg.opOperands op) (cfg.opResults op) s) s, [BEvent.implEv])

/-! ### Lattice element update notification (`AbstractSparseLattice::onUpdate`) -/

/-- The users of a value: the operations that use it as an operand
(`Value::getUsers`). -/
def usersOf (cfg : Config L) (v : ValueId) : List OpId :=
  cfg.allOps.filter fun o => decide (v ∈ cfg.opOperands o)

/-- `AbstractSparseLattice::onUpdate`: the base `AnalysisState::onUpdate`
enqueues the dependents; then every user of the owning value is enqueued
for every analysis subscribed via use-def subscription. -/
def sparseOnUpdate (cfg : Config L) (v : ValueId) (subs : List AnalysisId)
    (deps : List (PPoint × AnalysisId)) (queue : List (PPoint × AnalysisId)) :
    List (PPoint × AnalysisId) :=
  (queue ++ deps) ++ (usersOf cfg v).flatMap fun u => subs.map fun a => (.op u, a)

/-- `DataFlowSolver::propagateIfChanged` at a sparse lattice element: on a
change, run the element's `onUpdate`. -/
def propagateIfChanged (cfg : Config L) (v : ValueId) (subs : List AnalysisId)
    (deps : List (PPoint × AnalysisId)) (queue : List (PPoint × AnalysisId))
    (changed : Bool) : List (PPoint × AnalysisId) :=
  if changed then sparseOnUpdate cfg v subs deps queue else queue

/-! ### Basic lemmas about forward writes -/

theorem update_self (s : State L) (t : ValueId) (x : L) : update s t x t = x := by
  simp [update]

theorem update_other (s : State L) (t v : ValueId) (x : L) (h : v ≠ t) :
    update s t x v = s v := by
  simp [update, h]

theorem applyF_entry_not_mem [DecidableEq L] (lat : Lat L) (tgts : List ValueId) (s : State L)
    (v : ValueId) (hv : v ∉ tgts) : (applyF lat (entryCmds tgts) s).1 v = s v := by
  induction tgts generalizing s with
  | nil => rfl
  | cons t ts ih =>
      have hvt : v ≠ t := fun h => hv (h ▸ List.mem_cons_self t ts)
      have hvs : v ∉ ts := fun h => hv (List.mem_cons_of_mem _ h)
      simp only [entryCmds, List.map_cons, applyF, fstep]
      have := ih (update s t lat.entry) hvs
      simp only [entryCmds] at this
      rw [this, update_other _ _ _ _ hvt]

theorem applyF_entry_mem [DecidableEq L] (lat : Lat L) (tgts : List ValueId) (s : State L)
    (v : ValueId) (hv : v ∈ tgts) : (applyF lat (entryCmds tgts) s).1 v = lat.entry := by
  induction tgts generalizing s with
  | nil => cases hv
  | cons t ts ih =>
      by_cases hvs : v ∈ ts
      · simp only [entryCmds, List.map_cons, applyF, fstep]
        have := ih (update s t lat.entry) hvs
        simpa only [entryCmds] using this
      · have hvt : v = t := by
          rcases List.mem_cons.mp hv with h | h
          · exact h
          · exact absurd h hvs
        subst hvt
        simp only [entryCmds, List.map_cons, applyF, fstep]
        have := applyF_entry_not_mem lat ts (update s v lat.entry) v hvs
        simp only [entryCmds] at this
        rw [this, update_self]

/-! ### Claim theorems: forward driver conservatism -/

/-- C1: for a call operation visited by the forward driver (live block,
results present, dispatched to the call case) whose predecessors are not
all statically known, every result lattice is set to the entry state; in
particular at any fixpoint of this visit the result lattices equal the
entry state, never anything more precise. -/
theorem forward_call_unknown_preds_entry [DecidableEq L] (cfg : Config L) (lat : Lat L)
    (op : OpId) (s : State L)
    (hres : cfg.opResults op ≠ [])
    (hlive : cfg.blockLive (cfg.opBlock op) = true)
    (hrb : cfg.isRegionBranch op = false)
    (hcall : cfg.isCall op = true)
    (hunk : (cfg.predState (.op op)).allKnown = false) :
    (∀ v ∈ cfg.opResults op, (visitOperationF cfg lat op s).1 v = lat.entry) ∧
    ((visitOperationF cfg lat op s).1 = s → ∀ v ∈ cfg.opResults op, s v = lat.entry) := by
  have hne : (cfg.opResults op).isEmpty = false := by
    cases h : cfg.opResults op with
    | nil => exact absurd h hres
    | cons a l => rfl
  have hmain : ∀ v ∈ cfg.opResults op, (visitOperationF cfg lat op s).1 v = lat.entry := by
    intro v hv
    simp only [visitOperationF, hne, hlive, hrb, hcall, hunk, Bool.not_true, Bool.not_false,
      Bool.false_eq_true, if_false, if_true, ite_true, ite_false]
    exact applyF_entry_mem lat _ s v hv
  refine ⟨hmain, ?_⟩
  intro hfix v hv
  have h1 := hmain v hv
  have h2 := congrFun hfix v
  rw [h2] at h1
  exact h1

theorem vrsF_unresolvable_entry [DecidableEq L] (cfg : Config L) (lat : Lat L) (pt : PPoint)
    (branchOp : OpId) (succIdx : Option Nat) (lattices : List ValueId)
    (preds : List OpId) (s : State L)
    (h : ∃ p ∈ preds, p ≠ branchOp ∧ cfg.isRegionTerminator p = false) :
    ∀ v ∈ lattices, (vrsF cfg lat pt branchOp succIdx lattices preds s).1 v = lat.entry := by
  induction preds generalizing s with
  | nil =>
      rcases h with ⟨p, hp, _⟩
      cases hp
  | cons p0 rest ih =>
      intro v hv
      cases hso : fwdSuccOperands cfg branchOp succIdx p0 with
      | none =>
          simp only [vrsF, hso]
          exact applyF_entry_mem lat _ s v hv
      | some ops =>
          rcases h with ⟨p, hp, hpb, hpt⟩
          have hprest : p ∈ rest := by
            rcases List.mem_cons.mp hp with h0 | h0
            · subst h0
              have : fwdSuccOperands cfg branchOp succIdx p = none := by
                simp [fwdSuccOperands, hpb, hpt]
              rw [this] at hso
              cases hso
            · exact h0
          simp only [vrsF, hso]
          exact ih _ ⟨p, hprest, hpb, hpt⟩ v hv

/-- C3: in the forward `visitRegionSuccessors`, when some known predecessor
is neither the region-branch operation itself nor an operation with the
region-branch-terminator capability (so its successor operand range cannot
be resolved), every lattice being computed ends up set to the entry
state. -/
theorem forward_region_successors_unresolvable_entry [DecidableEq L] (cfg : Config L)
    (lat : Lat L) (pt : PPoint) (branchOp : OpId) (succIdx : Option Nat)
    (lattices : List ValueId) (s : State L)
    (h : ∃ p ∈ (cfg.predState pt).known, p ≠ branchOp ∧ cfg.isRegionTerminator p = false) :
    ∀ v ∈ lattices,
      (vrsF cfg lat pt branchOp succIdx lattices (cfg.predState pt).known s).1 v = lat.entry :=
  vrsF_unresolvable_entry cfg lat pt branchOp succIdx lattices _ s h

/-- C2 (amended): when the forward `visitRegionSuccessors` is reached for a
program point whose predecessors are not all known, the driver does not
widen: the debug-build assertion `"unexpected unresolved region
successors"` fails, and in release mode only the known predecessors are
propagated — with no known predecessor the lattices are left untouched. -/
theorem forward_region_successors_unknown_preds_asserts [DecidableEq L] (cfg : Config L)
    (lat : Lat L) (pt : PPoint) (branchOp : OpId) (succIdx : Option Nat)
    (lattices : List ValueId) (s : State L)
    (hunk : (cfg.predState pt).allKnown = false) :
    vrsFDebug cfg lat pt branchOp succIdx lattices s = none ∧
    ((cfg.predState pt).known = [] →
      vrsF cfg lat pt branchOp succIdx lattices (cfg.predState pt).known s = (s, false)) := by
  constructor
  · simp [vrsFDebug, regionSuccAssertF, hunk]
  · intro hk
    rw [hk]
    rfl

/-- C6: visiting an operation or block whose containing block is not live
never mutates any lattice state and reports no change: the forward
`visitOperation` and `visitBlock` and the backward `visitOperation` all
return the state unchanged. -/
theorem dead_block_no_mutation [DecidableEq L] (cfg : Config L) (lat : Lat L)
    (op : OpId) (b : BlockId) (s : State L)
    (hop : cfg.blockLive (cfg.opBlock op) = false)
    (hb : cfg.blockLive b = false) :
    visitOperationF cfg lat op s = (s, false) ∧
    visitBlockF cfg lat b s = (s, false) ∧
    visitOperationB cfg lat op s = (s, []) := by
  refine ⟨?_, ?_, ?_⟩
  · simp [visitOperationF, hop]
  · simp [visitBlockF, hb]
  · simp [visitOperationB, hop]

/-! ### Concrete configurations for witnesses and counterexamples -/

/-- The two-point lattice used by the concrete witnesses. -/
def latB : Lat Bool where
  join := or
  meet := and
  entry := true
  exit := false

/-- A baseline configuration: an empty IR with trivial hooks; witnesses
override the fields they exercise. -/
def trivialConfig : Config Bool where
  opResults := fun _ => []
  opOperands := fun _ => []
  opBlock := fun _ => 0
  opParent := fun _ => 0
  opSuccessors := fun _ => []
  blockArgs := fun _ => []
  blockIsEntry := fun _ => false
  blockParentOp := fun _ => 0
  blockRegionNumber := fun _ => 0
  blockPreds := fun _ => []
  blockTerminator := fun _ => 0
  blockLive := fun _ => true
  edgeLive := fun _ _ => true
  isRegionBranch := fun _ => false
  isCall := fun _ => false
  isBranch := fun _ => false
  isRegionTerminator := fun _ => false
  isReturnLike := fun _ => false
  isCallable := fun _ => false
  callableRegionIsBlockRegion := fun _ => false
  callableRegionBlocks := fun _ => none
  callArgOperands := fun _ => []
  resolveCallable := fun _ => none
  predState := fun _ => ⟨true, []⟩
  successorInputs := fun _ _ => []
  entrySuccOperandRange := fun _ _ => (0, 0)
  termSuccOperandRange := fun _ _ => (0, 0)
  succOperands := fun _ _ => ⟨0, 0, 0⟩
  branchSuccArg := fun _ _ _ => none
  bEntrySuccessors := fun _ => []
  termSuccessors := fun _ => []
  resultNumber := fun _ => 0
  argNumber := fun _ => 0
  allOps := []
  nonCFHook := fun _ _ _ _ => []
  opImplF := fun _ _ _ _ => []
  branchOperandHook := fun _ _ _ => []
  opImplB := fun _ _ _ _ => []

/-- Configuration reaching the forward `visitRegionSuccessors` with
predecessors not all known. -/
def c2cfg : Config Bool :=
  { trivialConfig with predState := fun _ => ⟨false, []⟩ }

/-- C2 counterexample: the forward `visitRegionSuccessors` is reached for a
point whose predecessors are not all known, yet the lattice being computed
is not widened to the entry state (the assertion would fire instead). -/
theorem c2_widen_claim_false :
    (c2cfg.predState (.op 0)).allKnown = false ∧
    (vrsF c2cfg latB (.op 0) 0 none [1] (c2cfg.predState (.op 0)).known
        (fun _ => false)).1 1 ≠ latB.entry := by
  exact ⟨rfl, by decide⟩

/-- C2 witness for the amended claim at a concrete input. -/
theorem c2_amended_witness :
    (c2cfg.predState (.op 0)).allKnown = false ∧
    vrsFDebug c2cfg latB (.op 0) 0 none [1] (fun _ => false) = none := by
  refine ⟨rfl, ?_⟩
  exact (forward_region_successors_unknown_preds_asserts c2cfg latB (.op 0) 0 none [1]
    (fun _ => false) rfl).1

/-- Configuration with a call operation (op 0, result value 1) whose
predecessors are not all known. -/
def c1cfg : Config Bool :=
  { trivialConfig with
      opResults := fun o => if o = 0 then [1] else []
      isCall := fun o => o = 0
      predState := fun _ => ⟨false, []⟩ }

/-- C1 witness: at a concrete call with unknown predecessors, the result
lattice is set to the entry state. -/
theorem c1_witness :
    c1cfg.opResults 0 ≠ [] ∧
    c1cfg.blockLive (c1cfg.opBlock 0) = true ∧
    c1cfg.isRegionBranch 0 = false ∧
    c1cfg.isCall 0 = true ∧
    (c1cfg.predState (.op 0)).allKnown = false ∧
    (visitOperationF c1cfg latB 0 (fun _ => false)).1 1 = latB.entry := by
  refine ⟨by decide, rfl, rfl, by decide, rfl, ?_⟩
  exact (forward_call_unknown_preds_entry c1cfg latB 0 (fun _ => false)
    (by decide) rfl rfl (by decide) rfl).1 1 (by decide)

/-- Configuration with a region-branch point whose known predecessor
(op 4) is neither the branch op (op 0) nor a region terminator. -/
def c3cfg : Config Bool :=
  { trivialConfig with predState := fun _ => ⟨true, [4]⟩ }

/-- C3 witness: a concrete unresolvable known predecessor forces the
lattice being computed to the entry state. -/
theorem c3_witness :
    (∃ p ∈ (c3cfg.predState (.op 0)).known, p ≠ 0 ∧ c3cfg.isRegionTerminator p = false) ∧
    (vrsF c3cfg latB (.op 0) 0 none [1] (c3cfg.predState (.op 0)).known
        (fun _ => false)).1 1 = latB.entry := by
  refine ⟨⟨4, by decide, by decide, rfl⟩, ?_⟩
  exact forward_region_successors_unresolvable_entry c3cfg latB (.op 0) 0 none [1]
    (fun _ => false) ⟨4, by decide, by decide, rfl⟩ 1 (by decide)

/-- Configuration whose block 0 is dead. -/
def c6cfg : Config Bool :=
  { trivialConfig with blockLive := fun _ => false }

/-- C6 witness: visiting an operation and a block in a dead block leaves a
concrete state untouched in both drivers. -/
theorem c6_witness :
    c6cfg.blockLive (c6cfg.opBlock 0) = false ∧
    c6cfg.blockLive 0 = false ∧
    visitOperationF c6cfg latB 0 (fun _ => false) = ((fun _ => false), false) ∧
    visitBlockF c6cfg latB 0 (fun _ => false) = ((fun _ => false), false) ∧
    visitOperationB c6cfg latB 0 (fun _ => false) = ((fun _ => false), []) := by
  have h := dead_block_no_mutation c6cfg latB 0 0 (fun _ => false) rfl rfl
  exact ⟨rfl, rfl, h.1, h.2.1, h.2.2⟩

/-! ### Claim theorem: onUpdate notification -/

theorem count_pair_map (u0 u : OpId) (subs : List AnalysisId) (a : AnalysisId) :
    (subs.map fun b => ((PPoint.op u0, b) : PPoint × AnalysisId)).count (.op u, a)
      = if u0 = u then subs.count a else 0 := by
  induction subs with
  | nil => simp
  | cons b bs ih =>
      by_cases hu : u0 = u
      · subst hu
        simp [List.count_cons, ih]
      · simp [List.count_cons, ih, hu, Ne.symm hu]

theorem count_pair_product (users : List OpId) (subs : List AnalysisId) (u : OpId)
    (a : AnalysisId) :
    (users.flatMap fun u0 => subs.map fun b =>
        ((PPoint.op u0, b) : PPoint × AnalysisId)).count (.op u, a)
      = users.count u * subs.count a := by
  induction users with
  | nil => simp
  | cons u0 us ih =>
      simp only [List.flatMap_cons, List.count_append, ih, count_pair_map, List.count_cons]
      by_cases hu : u0 = u
      · subst hu
        simp [Nat.succ_mul, Nat.add_comm]
      · simp [hu, Ne.symm hu]

/-- C8: when a sparse lattice element's value changes, `onUpdate` enqueues,
after the generic dependents, every operation that uses the owning value as
an operand, once for every analysis subscribed via use-def subscription:
the work item (user, analysis) is appended exactly (multiplicity of the
user among the value's users) x (multiplicity of the analysis among the
subscribers) times, and the users are exactly the operations having the
value among their operands. -/
theorem lattice_onupdate_enqueues_users (cfg : Config L) (v : ValueId)
    (subs : List AnalysisId) (deps queue : List (PPoint × AnalysisId))
    (u : OpId) (a : AnalysisId) :
    (propagateIfChanged cfg v subs deps queue true).count (.op u, a)
      = (queue ++ deps).count (.op u, a) + (usersOf cfg v).count u * subs.count a ∧
    (u ∈ usersOf cfg v ↔ u ∈ cfg.allOps ∧ v ∈ cfg.opOperands u) := by
  constructor
  · simp [propagateIfChanged, sparseOnUpdate, List.count_append, count_pair_product,
      Nat.add_assoc]
  · simp [usersOf, List.mem_filter]

/-! ### Claim theorems: backward call and return-like cases -/

/-- C9: for an operation dispatched to the backward call case whose callee
resolves to a callable operation with a null or empty callable region, the
backward `visitOperation` returns with every operand lattice unchanged: no
meet is performed, nothing is widened to the exit state, and the generic
transfer function `visitOperationImpl` is not invoked (the event log is
empty and the state is returned as-is). -/
theorem backward_call_empty_region_noop (cfg : Config L) (lat : Lat L) (op c : OpId)
    (s : State L)
    (hlive : cfg.blockLive (cfg.opBlock op) = true)
    (hrb : cfg.isRegionBranch op = false)
    (hbr : cfg.isBranch op = false)
    (hcall : cfg.isCall op = true)
    (hres : cfg.resolveCallable op = some c)
    (hcallable : cfg.isCallable c = true)
    (hregion : cfg.callableRegionBlocks c = none ∨ cfg.callableRegionBlocks c = some []) :
    visitOperationB cfg lat op s = (s, []) := by
  rcases hregion with h | h <;>
    simp [visitOperationB, hlive, hrb, hbr, hcall, hres, hcallable, h]

theorem foldl_bMeetStep (lat : Lat L) (l : List (Nat × ValueId × ValueId)) (s : State L)
    (log : List BEvent) :
    l.foldl (bMeetStep lat) (s, log) =
      (bReplay lat (l.map toMeetEv) s, log ++ l.map toMeetEv) := by
  induction l generalizing s log with
  | nil => simp [bReplay]
  | cons q l ih =>
      simp only [List.foldl_cons, List.map_cons, bMeetStep]
      rw [ih]
      simp [bReplay, bReplayEv, toMeetEv, List.foldl_cons]

theorem bReplay_append (lat : Lat L) (xs ys : List BEvent) (s : State L) :
    bReplay lat (xs ++ ys) s = bReplay lat ys (bReplay lat xs s) := by
  simp [bReplay, List.foldl_append]

theorem bReturnMeets_general (cfg : Config L) (lat : Lat L) (op : OpId) (calls : List OpId)
    (s : State L) (log : List BEvent) :
    calls.foldl (fun p call => (returnMeetTriples cfg op call).foldl (bMeetStep lat) p)
        (s, log)
      = (bReplay lat (returnMeetLog cfg op calls) s, log ++ returnMeetLog cfg op calls) := by
  induction calls generalizing s log with
  | nil => simp [returnMeetLog, bReplay]
  | cons c cs ih =>
      simp only [List.foldl_cons, foldl_bMeetStep, ih, returnMeetLog, List.flatMap_cons]
      rw [bReplay_append]
      simp [List.append_assoc]

theorem bReturnMeets_eq (cfg : Config L) (lat : Lat L) (op : OpId) (calls : List OpId)
    (s : State L) :
    bReturnMeets cfg lat op calls s =
      (bReplay lat (returnMeetLog cfg op calls) s, returnMeetLog cfg op calls) := by
  have := bReturnMeets_general cfg lat op calls s []
  simpa [bReturnMeets] using this

theorem foldl_exit_not_mem (lat : Lat L) (ops : List ValueId) (s : State L) (v : ValueId)
    (hv : v ∉ ops) :
    (ops.foldl (fun s2 t => bstep lat s2 (.bexit t)) s) v = s v := by
  induction ops generalizing s with
  | nil => rfl
  | cons t ts ih =>
      have hvt : v ≠ t := fun h => hv (h ▸ List.mem_cons_self t ts)
      have hvs : v ∉ ts := fun h => hv (List.mem_cons_of_mem _ h)
      simp only [List.foldl_cons]
      rw [ih _ hvs]
      exact update_other _ _ _ _ hvt

theorem foldl_exit_mem (lat : Lat L) (ops : List ValueId) (s : State L) (v : ValueId)
    (hv : v ∈ ops) :
    (ops.foldl (fun s2 t => bstep lat s2 (.bexit t)) s) v = lat.exit := by
  induction ops generalizing s with
  | nil => cases hv
  | cons t ts ih =>
      by_cases hvs : v ∈ ts
      · simp only [List.foldl_cons]
        exact ih _ hvs
      · have hvt : v = t := by
          rcases List.mem_cons.mp hv with h | h
          · exact h
          · exact absurd h hvs
        subst hvt
        simp only [List.foldl_cons]
        rw [foldl_exit_not_mem lat ts _ v hvs]
        exact update_self _ _ _

theorem bExitAll_state (cfg : Config L) (lat : Lat L) (op : OpId) (s : State L) :
    (bExitAll cfg lat op s).1
      = (cfg.opOperands op).foldl (fun s2 t => bstep lat s2 (.bexit t)) s := by
  have key : ∀ (ops : List ValueId) (s : State L) (log : List BEvent),
      (ops.foldl (fun p v => (bstep lat p.1 (.bexit v), p.2 ++ [BEvent.exitEv v])) (s, log)).1
        = ops.foldl (fun s2 t => bstep lat s2 (.bexit t)) s := by
    intro ops
    induction ops with
    | nil => intro s log; rfl
    | cons t ts ih => intro s log; simp only [List.foldl_cons]; exact ih _ _
  exact key _ s []

/-- C4: for a return-like operation at function scope visited by the
backward driver: with all call sites of the enclosing callable statically
known, the visit performs exactly the meets of each operand lattice with
the corresponding result lattice at every known call site (the result is
the replay of that meet log); with call sites not all known, every operand
lattice is set to the exit state. -/
theorem backward_returnlike_callsites (cfg : Config L) (lat : Lat L) (op : OpId) (s : State L)
    (hlive : cfg.blockLive (cfg.opBlock op) = true)
    (hrb : cfg.isRegionBranch op = false)
    (hbr : cfg.isBranch op = false)
    (hcall : cfg.isCall op = false)
    (hterm : cfg.isRegionTerminator op = false)
    (hret : cfg.isReturnLike op = true)
    (hcallable : cfg.isCallable (cfg.opParent op) = true) :
    ((cfg.predState (.op (cfg.opParent op))).allKnown = true →
      visitOperationB cfg lat op s =
        (bReplay lat (returnMeetLog cfg op (cfg.predState (.op (cfg.opParent op))).known) s,
         returnMeetLog cfg op (cfg.predState (.op (cfg.opParent op))).known)) ∧
    ((cfg.predState (.op (cfg.opParent op))).allKnown = false →
      ∀ v ∈ cfg.opOperands op, (visitOperationB cfg lat op s).1 v = lat.exit) := by
  constructor
  · intro hk
    simp only [visitOperationB, hlive, hrb, hbr, hcall, hterm, hret, hcallable, hk,
      Bool.not_true, Bool.false_and, Bool.true_and, Bool.and_true, if_true, if_false,
      Bool.false_eq_true, ite_false, ite_true]
    exact bReturnMeets_eq cfg lat op _ s
  · intro hk v hv
    simp only [visitOperationB, hlive, hrb, hbr, hcall, hterm, hret, hcallable, hk,
      Bool.not_true, Bool.false_and, Bool.true_and, Bool.and_true, if_true, if_false,
      Bool.false_eq_true, ite_false, ite_true]
    rw [bExitAll_state]
    exact foldl_exit_mem lat _ s v hv

/-- Configuration with a resolvable call (op 0) to a callable (op 3) whose
callable region is empty. -/
def c9cfg : Config Bool :=
  { trivialConfig with
      isCall := fun o => o = 0
      resolveCallable := fun o => if o = 0 then some 3 else none
      isCallable := fun o => o = 3
      callableRegionBlocks := fun o => if o = 3 then some [] else none }

/-- C9 witness: a concrete call to a callable with an empty region leaves
the state and event log empty. -/
theorem c9_witness :
    c9cfg.isCall 0 = true ∧
    c9cfg.resolveCallable 0 = some 3 ∧
    c9cfg.isCallable 3 = true ∧
    c9cfg.callableRegionBlocks 3 = some [] ∧
    visitOperationB c9cfg latB 0 (fun _ => false) = ((fun _ => false), []) := by
  refine ⟨by decide, rfl, by decide, rfl, ?_⟩
  exact backward_call_empty_region_noop c9cfg latB 0 3 (fun _ => false)
    rfl rfl rfl (by decide) rfl (by decide) (Or.inr rfl)

/-- Configuration with a return-like op 0 (operand value 1) inside callable
op 5, with one known call site op 7 (result value 2). -/
def c4cfg : Config Bool :=
  { trivialConfig with
      opOperands := fun o => if o = 0 then [1] else []
      opResults := fun o => if o = 7 then [2] else []
      opParent := fun _ => 5
      isReturnLike := fun o => o = 0
      isCallable := fun o => o = 5
      predState := fun _ => ⟨true, [7]⟩ }

/-- C4 witness: with the one call site known, the visit meets the return
operand's lattice with the call result's lattice. -/
theorem c4_witness :
    c4cfg.isReturnLike 0 = true ∧
    c4cfg.isCallable (c4cfg.opParent 0) = true ∧
    (c4cfg.predState (.op (c4cfg.opParent 0))).allKnown = true ∧
    visitOperationB c4cfg latB 0 (fun v => v = 2) =
      (bReplay latB (returnMeetLog c4cfg 0 (c4cfg.predState (.op (c4cfg.opParent 0))).known)
          (fun v => v = 2),
       returnMeetLog c4cfg 0 (c4cfg.predState (.op (c4cfg.opParent 0))).known) := by
  refine ⟨by decide, by decide, rfl, ?_⟩
  exact (backward_returnlike_callsites c4cfg latB 0 (fun v => v = 2)
    rfl rfl rfl rfl rfl (by decide) (by decide)).1 rfl

/-! ### Claim theorems: backward branch operand attribution -/

theorem bResetAndMeet_unacc (cfg : Config L) (lat : Lat L) (op : OpId) (i : Nat)
    (st : BSt L) (j k : Nat) :
    (bResetAndMeet cfg lat op i st j).unacc k = if k = j then false else st.unacc k := by
  cases h : cfg.branchSuccArg op i j <;> simp [bResetAndMeet, h]

theorem bResetAndMeet_log (cfg : Config L) (lat : Lat L) (op : OpId) (i : Nat)
    (st : BSt L) (j : Nat) :
    (bResetAndMeet cfg lat op i st j).log = st.log ∨
    ∃ arg, cfg.branchSuccArg op i j = some arg ∧
      (bResetAndMeet cfg lat op i st j).log
        = st.log ++ [.meetEv j (opOperandVal cfg op j) arg] := by
  cases h : cfg.branchSuccArg op i j with
  | none => left; simp [bResetAndMeet, h]
  | some arg => right; exact ⟨arg, rfl, by simp [bResetAndMeet, h]⟩

theorem innerFold_unacc (cfg : Config L) (lat : Lat L) (op : OpId) (i : Nat)
    (js : List Nat) (st : BSt L) (k : Nat) :
    ((js.foldl (bResetAndMeet cfg lat op i) st).unacc k)
      = if k ∈ js then false else st.unacc k := by
  induction js generalizing st with
  | nil => simp
  | cons j js ih =>
      simp only [List.foldl_cons, ih, bResetAndMeet_unacc]
      by_cases hk : k ∈ js
      · simp [hk]
      · by_cases hkj : k = j
        · simp [hk, hkj]
        · simp [hk, hkj]

theorem innerFold_log_sub (cfg : Config L) (lat : Lat L) (op : OpId) (i : Nat)
    (js : List Nat) (st : BSt L) (e : BEvent)
    (he : e ∈ (js.foldl (bResetAndMeet cfg lat op i) st).log) :
    e ∈ st.log ∨ ∃ j ∈ js, ∃ arg, cfg.branchSuccArg op i j = some arg ∧
      e = .meetEv j (opOperandVal cfg op j) arg := by
  induction js generalizing st with
  | nil => exact Or.inl he
  | cons j js ih =>
      simp only [List.foldl_cons] at he
      rcases ih _ he with h | ⟨j2, hj2, arg, harg, he2⟩
      · rcases bResetAndMeet_log cfg lat op i st j with hl | ⟨arg, harg, hl⟩
        · rw [hl] at h
          exact Or.inl h
        · rw [hl] at h
          rcases List.mem_append.mp h with h2 | h2
          · exact Or.inl h2
          · right
            exact ⟨j, List.mem_cons_self j js, arg, harg, List.mem_singleton.mp h2⟩
      · exact Or.inr ⟨j2, List.mem_cons_of_mem _ hj2, arg, harg, he2⟩

theorem bBranchSucc_unacc (cfg : Config L) (lat : Lat L) (op : OpId) (st : BSt L)
    (pr : Nat × BlockId) (k : Nat) :
    (bBranchSucc cfg lat op st pr).unacc k
      = if k ∈ List.range' (cfg.succOperands op pr.1).first (cfg.succOperands op pr.1).size
        then false else st.unacc k :=
  innerFold_unacc cfg lat op pr.1 _ st k

theorem outerFold_unacc_none (cfg : Config L) (lat : Lat L) (op : OpId)
    (prs : List (Nat × BlockId)) (st : BSt L) (k : Nat)
    (h : ∀ pr ∈ prs,
      k ∉ List.range' (cfg.succOperands op pr.1).first (cfg.succOperands op pr.1).size) :
    (prs.foldl (bBranchSucc cfg lat op) st).unacc k = st.unacc k := by
  induction prs generalizing st with
  | nil => rfl
  | cons pr prs ih =>
      simp only [List.foldl_cons]
      rw [ih _ (fun q hq => h q (List.mem_cons_of_mem _ hq)), bBranchSucc_unacc]
      simp [h pr (List.mem_cons_self pr prs)]

theorem outerFold_unacc_false (cfg : Config L) (lat : Lat L) (op : OpId)
    (prs : List (Nat × BlockId)) (st : BSt L) (k : Nat)
    (h : st.unacc k = false) :
    (prs.foldl (bBranchSucc cfg lat op) st).unacc k = false := by
  induction prs generalizing st with
  | nil => exact h
  | cons pr prs ih =>
      simp only [List.foldl_cons]
      refine ih _ ?_
      rw [bBranchSucc_unacc]
      simp [h]

theorem outerFold_unacc_mem (cfg : Config L) (lat : Lat L) (op : OpId)
    (prs : List (Nat × BlockId)) (st : BSt L) (k : Nat)
    (h : ∃ pr ∈ prs,
      k ∈ List.range' (cfg.succOperands op pr.1).first (cfg.succOperands op pr.1).size) :
    (prs.foldl (bBranchSucc cfg lat op) st).unacc k = false := by
  induction prs generalizing st with
  | nil =>
      rcases h with ⟨pr, hpr, _⟩
      cases hpr
  | cons pr prs ih =>
      rcases h with ⟨q, hq, hmem⟩
      rcases List.mem_cons.mp hq with h0 | h0
      · subst h0
        simp only [List.foldl_cons]
        refine outerFold_unacc_false cfg lat op prs _ k ?_
        rw [bBranchSucc_unacc]
        simp [hmem]
      · simp only [List.foldl_cons]
        exact ih _ ⟨q, h0, hmem⟩

theorem outerFold_log_sub (cfg : Config L) (lat : Lat L) (op : OpId)
    (prs : List (Nat × BlockId)) (st : BSt L) (e : BEvent)
    (he : e ∈ (prs.foldl (bBranchSucc cfg lat op) st).log) :
    e ∈ st.log ∨ ∃ pr ∈ prs,
      ∃ j ∈ List.range' (cfg.succOperands op pr.1).first (cfg.succOperands op pr.1).size,
        ∃ arg, cfg.branchSuccArg op pr.1 j = some arg ∧
          e = .meetEv j (opOperandVal cfg op j) arg := by
  induction prs generalizing st with
  | nil => exact Or.inl he
  | cons pr prs ih =>
      simp only [List.foldl_cons] at he
      rcases ih _ he with h | ⟨q, hq, j, hj, arg, harg, he2⟩
      · rcases innerFold_log_sub cfg lat op pr.1 _ st e h with h2 | ⟨j, hj, arg, harg, he2⟩
        · exact Or.inl h2
        · exact Or.inr ⟨pr, List.mem_cons_self pr prs, j, hj, arg, harg, he2⟩
      · exact Or.inr ⟨q, List.mem_cons_of_mem _ hq, j, hj, arg, harg, he2⟩

theorem bBranchOperandLoop_log (cfg : Config L) (lat : Lat L) (op : OpId)
    (idxs : List Nat) (s1 : State L) (log1 : List BEvent) :
    (bBranchOperandLoop cfg lat op idxs (s1, log1)).2
      = log1 ++ idxs.map BEvent.branchOperandEv := by
  induction idxs generalizing s1 log1 with
  | nil => simp [bBranchOperandLoop]
  | cons i is ih =>
      simp only [bBranchOperandLoop]
      rw [ih]
      simp

theorem branchOperandEv_injective : Function.Injective BEvent.branchOperandEv := by
  intro a b h
  injection h

theorem bBranchPath_log (cfg : Config L) (lat : Lat L) (op : OpId) (s : State L) :
    (bBranchPath cfg lat op s).2
      = (bBranchScan cfg lat op s).log
        ++ ((List.range (cfg.opOperands op).length).filter
              (bBranchScan cfg lat op s).unacc).map BEvent.branchOperandEv := by
  simp only [bBranchPath]
  exact bBranchOperandLoop_log cfg lat op _ _ _

theorem bBranchScan_log_sub (cfg : Config L) (lat : Lat L) (op : OpId) (s : State L)
    (e : BEvent) (he : e ∈ (bBranchScan cfg lat op s).log) :
    ∃ pr ∈ (cfg.opSuccessors op).enum,
      ∃ j ∈ List.range' (cfg.succOperands op pr.1).first (cfg.succOperands op pr.1).size,
        ∃ arg, cfg.branchSuccArg op pr.1 j = some arg ∧
          e = .meetEv j (opOperandVal cfg op j) arg := by
  rcases outerFold_log_sub cfg lat op _ _ e he with h | h
  · cases h
  · exact h

/-- C5: for an operation dispatched to the backward unstructured-branch
case, an operand forwarded to no successor block is routed through
`visitBranchOperand` exactly once and is never met against a successor
block argument's lattice, even when the forwarded ranges of the successors
are non-contiguous. -/
theorem backward_branch_unforwarded_operand (cfg : Config L) (lat : Lat L) (op : OpId)
    (s : State L) (k : Nat)
    (hlive : cfg.blockLive (cfg.opBlock op) = true)
    (hrb : cfg.isRegionBranch op = false)
    (hbr : cfg.isBranch op = true)
    (hk : k < (cfg.opOperands op).length)
    (hnf : ∀ pr ∈ (cfg.opSuccessors op).enum,
      k ∉ List.range' (cfg.succOperands op pr.1).first (cfg.succOperands op pr.1).size) :
    (visitOperationB cfg lat op s).2.count (.branchOperandEv k) = 1 ∧
    ∀ tgt src, BEvent.meetEv k tgt src ∉ (visitOperationB cfg lat op s).2 := by
  have hdisp : visitOperationB cfg lat op s = bBranchPath cfg lat op s := by
    simp [visitOperationB, hlive, hrb, hbr]
  have hunacc : (bBranchScan cfg lat op s).unacc k = true :=
    outerFold_unacc_none cfg lat op _ _ k hnf
  have hscanmeet : ∀ e ∈ (bBranchScan cfg lat op s).log,
      ∃ j tgt src, e = BEvent.meetEv j tgt src ∧ j ≠ k := by
    intro e he
    rcases bBranchScan_log_sub cfg lat op s e he with ⟨pr, hpr, j, hj, arg, _, he2⟩
    refine ⟨j, _, _, he2, ?_⟩
    intro hjk
    exact hnf pr hpr (hjk ▸ hj)
  have hkidx : k ∈ (List.range (cfg.opOperands op).length).filter
      (bBranchScan cfg lat op s).unacc := by
    rw [List.mem_filter]
    exact ⟨List.mem_range.mpr hk, hunacc⟩
  have hnodup : ((List.range (cfg.opOperands op).length).filter
      (bBranchScan cfg lat op s).unacc).Nodup :=
    (List.nodup_range _).filter _
  rw [hdisp, bBranchPath_log]
  constructor
  · rw [List.count_append]
    have h0 : (bBranchScan cfg lat op s).log.count (BEvent.branchOperandEv k) = 0 := by
      rw [List.count_eq_zero]
      intro hmem
      rcases hscanmeet _ hmem with ⟨j, tgt, src, he, _⟩
      cases he
    rw [h0, List.count_map_of_injective _ _ branchOperandEv_injective,
      List.count_eq_one_of_mem hnodup hkidx]
  · intro tgt src hmem
    rcases List.mem_append.mp hmem with h | h
    · rcases hscanmeet _ h with ⟨j, tgt2, src2, he, hjk⟩
      injection he with h1 h2 h3
      exact hjk h1.symm
    · rcases List.mem_map.mp h with ⟨i, _, hi⟩
      cases hi

/-- C10: in the backward unstructured-branch case, an operand lying inside
some successor's forwarded range for which no successor block argument can
be found is cleared from the `unaccounted` set and then dropped entirely:
its lattice is never met with a block-argument lattice and it is never
passed to `visitBranchOperand`. -/
theorem backward_branch_unmatched_forwarded_operand_dropped (cfg : Config L) (lat : Lat L)
    (op : OpId) (s : State L) (k : Nat)
    (hlive : cfg.blockLive (cfg.opBlock op) = true)
    (hrb : cfg.isRegionBranch op = false)
    (hbr : cfg.isBranch op = true)
    (hin : ∃ pr ∈ (cfg.opSuccessors op).enum,
      k ∈ List.range' (cfg.succOperands op pr.1).first (cfg.succOperands op pr.1).size)
    (hnone : ∀ pr ∈ (cfg.opSuccessors op).enum,
      k ∈ List.range' (cfg.succOperands op pr.1).first (cfg.succOperands op pr.1).size →
      cfg.branchSuccArg op pr.1 k = none) :
    (bBranchScan cfg lat op s).unacc k = false ∧
    BEvent.branchOperandEv k ∉ (visitOperationB cfg lat op s).2 ∧
    ∀ tgt src, BEvent.meetEv k tgt src ∉ (visitOperationB cfg lat op s).2 := by
  have hdisp : visitOperationB cfg lat op s = bBranchPath cfg lat op s := by
    simp [visitOperationB, hlive, hrb, hbr]
  have hunacc : (bBranchScan cfg lat op s).unacc k = false :=
    outerFold_unacc_mem cfg lat op _ _ k hin
  have hnomeetk : ∀ e ∈ (bBranchScan cfg lat op s).log,
      ∀ tgt src, e ≠ BEvent.meetEv k tgt src := by
    intro e he tgt src hek
    rcases bBranchScan_log_sub cfg lat op s e he with ⟨pr, hpr, j, hj, arg, harg, he2⟩
    rw [hek] at he2
    injection he2 with h1 h2 h3
    subst h1
    rw [hnone pr hpr hj] at harg
    cases harg
  refine ⟨hunacc, ?_, ?_⟩
  · rw [hdisp, bBranchPath_log]
    intro hmem
    rcases List.mem_append.mp hmem with h | h
    · rcases bBranchScan_log_sub cfg lat op s _ h with ⟨pr, hpr, j, hj, arg, harg, he2⟩
      cases he2
    · rcases List.mem_map.mp h with ⟨i, hi, hie⟩
      have hik : i = k := branchOperandEv_injective hie
      subst hik
      have := (List.mem_filter.mp hi).2
      rw [hunacc] at this
      cases this
  · intro tgt src
    rw [hdisp, bBranchPath_log]
    intro hmem
    rcases List.mem_append.mp hmem with h | h
    · exact hnomeetk _ h tgt src rfl
    · rcases List.mem_map.mp h with ⟨i, _, hi⟩
      cases hi

/-- Configuration with a two-successor branch op 0 whose successor 0
forwards operand #0 and successor 1 forwards operand #1, operand #2 being
forwarded to neither. -/
def c5cfg : Config Bool :=
  { trivialConfig with
      opOperands := fun o => if o = 0 then [10, 11, 12] else []
      isBranch := fun o => o = 0
      opSuccessors := fun o => if o = 0 then [1, 2] else []
      succOperands := fun o i =>
        if o = 0 && i = 0 then ⟨0, 0, 1⟩
        else if o = 0 && i = 1 then ⟨0, 1, 1⟩
        else ⟨0, 0, 0⟩
      branchSuccArg := fun o i j =>
        if o = 0 && i = 0 && j = 0 then some 20
        else if o = 0 && i = 1 && j = 1 then some 21
        else none }

/-- C5 witness: in the concrete two-successor branch, operand #2 goes
through `visitBranchOperand` exactly once and is never met. -/
theorem c5_witness :
    c5cfg.isBranch 0 = true ∧
    2 < (c5cfg.opOperands 0).length ∧
    (∀ pr ∈ (c5cfg.opSuccessors 0).enum,
      2 ∉ List.range' (c5cfg.succOperands 0 pr.1).first (c5cfg.succOperands 0 pr.1).size) ∧
    (visitOperationB c5cfg latB 0 (fun _ => false)).2.count (.branchOperandEv 2) = 1 ∧
    BEvent.meetEv 2 0 0 ∉ (visitOperationB c5cfg latB 0 (fun _ => false)).2 := by
  have h := backward_branch_unforwarded_operand c5cfg latB 0 (fun _ => false) 2
    rfl rfl (by decide) (by decide) (by decide)
  exact ⟨by decide, by decide, by decide, h.1, h.2 0 0⟩

/-- Configuration with a one-successor branch op 0 forwarding operands #0
and #1, where no successor block argument is found for operand #1. -/
def c10cfg : Config Bool :=
  { trivialConfig with
      opOperands := fun o => if o = 0 then [10, 11] else []
      isBranch := fun o => o = 0
      opSuccessors := fun o => if o = 0 then [1] else []
      succOperands := fun o i => if o = 0 && i = 0 then ⟨0, 0, 2⟩ else ⟨0, 0, 0⟩
      branchSuccArg := fun o i j => if o = 0 && i = 0 && j = 0 then some 20 else none }

/-- C10 witness: the concrete forwarded-but-unmatched operand #1 is
cleared from the unaccounted set, never met, and never routed through
`visitBranchOperand`. -/
theorem c10_witness :
    c10cfg.isBranch 0 = true ∧
    (∃ pr ∈ (c10cfg.opSuccessors 0).enum,
      1 ∈ List.range' (c10cfg.succOperands 0 pr.1).first (c10cfg.succOperands 0 pr.1).size) ∧
    c10cfg.branchSuccArg 0 0 1 = none ∧
    (bBranchScan c10cfg latB 0 (fun _ => false)).unacc 1 = false ∧
    BEvent.branchOperandEv 1 ∉ (visitOperationB c10cfg latB 0 (fun _ => false)).2 ∧
    BEvent.meetEv 1 0 0 ∉ (visitOperationB c10cfg latB 0 (fun _ => false)).2 := by
  have h := backward_branch_unmatched_forwarded_operand_dropped c10cfg latB 0
    (fun _ => false) 1 rfl rfl (by decide) (by decide) (by decide)
  exact ⟨by decide, by decide, rfl, h.1, h.2.1, h.2.2 0 0⟩

/-! ### Claim theorems: fixpoint stability of the forward driver -/

/-- The algebraic laws the claim assumes of the analysis-supplied `join`:
commutative, associative, idempotent, with the entry state as absorbing
top element. -/
structure FLaws (lat : Lat L) : Prop where
  comm : ∀ a b, lat.join a b = lat.join b a
  assoc : ∀ a b c, lat.join (lat.join a b) c = lat.join a (lat.join b c)
  idem : ∀ a, lat.join a a = a
  entryAbs : ∀ a, lat.join lat.entry a = lat.entry

/-- The join-induced information order on lattice values. -/
def latle (lat : Lat L) (a b : L) : Prop := lat.join a b = b

theorem latle_refl (lat : Lat L) (hl : FLaws lat) (a : L) : latle lat a a := hl.idem a

theorem latle_trans (lat : Lat L) (hl : FLaws lat) {a b c : L}
    (h1 : latle lat a b) (h2 : latle lat b c) : latle lat a c := by
  unfold latle at h1 h2 ⊢
  calc lat.join a c = lat.join a (lat.join b c) := by rw [h2]
    _ = lat.join (lat.join a b) c := (hl.assoc _ _ _).symm
    _ = lat.join b c := by rw [h1]
    _ = c := h2

theorem latle_antisymm (lat : Lat L) (hl : FLaws lat) {a b : L}
    (h1 : latle lat a b) (h2 : latle lat b a) : a = b := by
  calc a = lat.join b a := h2.symm
    _ = lat.join a b := hl.comm b a
    _ = b := h1

theorem latle_join_left (lat : Lat L) (hl : FLaws lat) (a b : L) :
    latle lat a (lat.join a b) := by
  unfold latle
  calc lat.join a (lat.join a b) = lat.join (lat.join a a) b := (hl.assoc _ _ _).symm
    _ = lat.join a b := by rw [hl.idem]

theorem latle_entry (lat : Lat L) (hl : FLaws lat) (a : L) : latle lat a lat.entry := by
  unfold latle
  rw [hl.comm]
  exact hl.entryAbs a

/-- Pointwise information order on states. -/
def sle (lat : Lat L) (s t : State L) : Prop := ∀ v, latle lat (s v) (t v)

theorem sle_refl (lat : Lat L) (hl : FLaws lat) (s : State L) : sle lat s s :=
  fun v => latle_refl lat hl (s v)

theorem sle_trans (lat : Lat L) (hl : FLaws lat) {s t u : State L}
    (h1 : sle lat s t) (h2 : sle lat t u) : sle lat s u :=
  fun v => latle_trans lat hl (h1 v) (h2 v)

theorem sle_antisymm (lat : Lat L) (hl : FLaws lat) {s t : State L}
    (h1 : sle lat s t) (h2 : sle lat t s) : s = t :=
  funext fun v => latle_antisymm lat hl (h1 v) (h2 v)

theorem fstep_le [DecidableEq L] (lat : Lat L) (hl : FLaws lat) (s : State L) (c : FCmd) :
    sle lat s (fstep lat s c).1 := by
  intro v
  cases c with
  | fjoin tgt src =>
      simp only [fstep]
      by_cases hv : v = tgt
      · subst hv
        rw [update_self]
        exact latle_join_left lat hl _ _
      · rw [update_other _ _ _ _ hv]
        exact latle_refl lat hl _
  | fentry tgt =>
      simp only [fstep]
      by_cases hv : v = tgt
      · subst hv
        rw [update_self]
        exact latle_entry lat hl _
      · rw [update_other _ _ _ _ hv]
        exact latle_refl lat hl _

theorem fstep_fix [DecidableEq L] (lat : Lat L) (s : State L) (c : FCmd)
    (h : (fstep lat s c).1 = s) : (fstep lat s c).2 = false := by
  cases c with
  | fjoin tgt src =>
      have h2 := congrFun h tgt
      simp only [fstep] at h2 ⊢
      rw [update_self] at h2
      simp [h2]
  | fentry tgt =>
      have h2 := congrFun h tgt
      simp only [fstep] at h2 ⊢
      rw [update_self] at h2
      simp [h2]

theorem applyF_le [DecidableEq L] (lat : Lat L) (hl : FLaws lat) (cs : List FCmd)
    (s : State L) : sle lat s (applyF lat cs s).1 := by
  induction cs generalizing s with
  | nil => exact sle_refl lat hl s
  | cons c cs ih =>
      simp only [applyF]
      exact sle_trans lat hl (fstep_le lat hl s c) (ih _)

theorem applyF_fix [DecidableEq L] (lat : Lat L) (hl : FLaws lat) (cs : List FCmd)
    (s : State L) (h : (applyF lat cs s).1 = s) : (applyF lat cs s).2 = false := by
  induction cs generalizing s with
  | nil => rfl
  | cons c cs ih =>
      simp only [applyF] at h ⊢
      have hle1 : sle lat s (fstep lat s c).1 := fstep_le lat hl s c
      have hle2 : sle lat (fstep lat s c).1 (applyF lat cs (fstep lat s c).1).1 :=
        applyF_le lat hl cs _
      have heq : (fstep lat s c).1 = s := by
        refine sle_antisymm lat hl ?_ hle1
        intro v
        have := hle2 v
        rw [h] at this
        exact this
      rw [heq] at h
      rw [fstep_fix lat s c heq, heq, ih _ h]
      rfl

theorem vrsF_le [DecidableEq L] (cfg : Config L) (lat : Lat L) (hl : FLaws lat)
    (pt : PPoint) (branchOp : OpId) (succIdx : Option Nat) (lattices : List ValueId)
    (preds : List OpId) (s : State L) :
    sle lat s (vrsF cfg lat pt branchOp succIdx lattices preds s).1 := by
  induction preds generalizing s with
  | nil => exact sle_refl lat hl s
  | cons p rest ih =>
      cases hso : fwdSuccOperands cfg branchOp succIdx p with
      | none =>
          simp only [vrsF, hso]
          exact applyF_le lat hl _ s
      | some ops =>
          simp only [vrsF, hso]
          exact sle_trans lat hl (applyF_le lat hl _ s)
            (sle_trans lat hl (applyF_le lat hl _ _) (ih _))

theorem vrsF_fix [DecidableEq L] (cfg : Config L) (lat : Lat L) (hl : FLaws lat)
    (pt : PPoint) (branchOp : OpId) (succIdx : Option Nat) (lattices : List ValueId)
    (preds : List OpId) (s : State L)
    (h : (vrsF cfg lat pt branchOp succIdx lattices preds s).1 = s) :
    (vrsF cfg lat pt branchOp succIdx lattices preds s).2 = false := by
  induction preds generalizing s with
  | nil => rfl
  | cons p rest ih =>
      cases hso : fwdSuccOperands cfg branchOp succIdx p with
      | none =>
          simp only [vrsF, hso] at h ⊢
          exact applyF_fix lat hl _ s h
      | some ops =>
          simp only [vrsF, hso] at h ⊢
          generalize hfh : vrsHook cfg pt branchOp lattices (cfg.successorInputs pt p) s = fh
            at h ⊢
          generalize hs1 : applyF lat fh.2 s = a1 at h ⊢
          generalize hs2 : applyF lat (zipJoinCmds ops (lattices.drop fh.1)) a1.1 = a2 at h ⊢
          have hle1 : sle lat s a1.1 := by
            rw [← hs1]
            exact applyF_le lat hl _ _
          have hle2 : sle lat a1.1 a2.1 := by
            rw [← hs2]
            exact applyF_le lat hl _ _
          have hle3 : sle lat a2.1 s := by
            intro v
            have h2 := vrsF_le cfg lat hl pt branchOp succIdx lattices rest a2.1 v
            rw [h] at h2
            exact h2
          have he1 : a1.1 = s :=
            sle_antisymm lat hl (sle_trans lat hl hle2 hle3) hle1
          have he2 : a2.1 = s := sle_antisymm lat hl hle3 (sle_trans lat hl hle1 hle2)
          have hf1 : a1.2 = false := by
            rw [← hs1]
            refine applyF_fix lat hl _ _ ?_
            rw [hs1]
            exact he1
          have hf2 : a2.2 = false := by
            rw [← hs2]
            refine applyF_fix lat hl _ _ ?_
            rw [hs2, he2, he1]
          have hf3 : (vrsF cfg lat pt branchOp succIdx lattices rest a2.1).2 = false := by
            rw [he2] at h ⊢
            exact ih _ h
          rw [hf1, hf2, hf3]
          rfl

theorem blockPredLoop_le [DecidableEq L] (cfg : Config L) (lat : Lat L) (hl : FLaws lat)
    (b : BlockId) (argLattices : List ValueId) (prs : List (BlockId × Nat)) (s : State L) :
    sle lat s (blockPredLoop cfg lat b argLattices prs s).1 := by
  induction prs generalizing s with
  | nil => exact sle_refl lat hl s
  | cons pr rest ih =>
      simp only [blockPredLoop]
      by_cases hedge : cfg.edgeLive pr.1 b
      · simp only [hedge, Bool.not_true, Bool.false_eq_true, if_false]
        by_cases hbr : cfg.isBranch (cfg.blockTerminator pr.1)
        · simp only [hbr, if_true]
          exact sle_trans lat hl (applyF_le lat hl _ s) (ih _)
        · simp only [hbr, Bool.false_eq_true, if_false]
          exact applyF_le lat hl _ s
      · have hedge2 : cfg.edgeLive pr.1 b = false := by
          cases h2 : cfg.edgeLive pr.1 b
          · rfl
          · exact absurd h2 hedge
        simp only [hedge2, Bool.not_false, if_true]
        exact ih _

theorem blockPredLoop_fix [DecidableEq L] (cfg : Config L) (lat : Lat L) (hl : FLaws lat)
    (b : BlockId) (argLattices : List ValueId) (prs : List (BlockId × Nat)) (s : State L)
    (h : (blockPredLoop cfg lat b argLattices prs s).1 = s) :
    (blockPredLoop cfg lat b argLattices prs s).2 = false := by
  induction prs generalizing s with
  | nil => rfl
  | cons pr rest ih =>
      simp only [blockPredLoop] at h ⊢
      by_cases hedge : cfg.edgeLive pr.1 b
      · simp only [hedge, Bool.not_true, Bool.false_eq_true, if_false] at h ⊢
        by_cases hbr : cfg.isBranch (cfg.blockTerminator pr.1)
        · simp only [hbr, if_true] at h ⊢
          generalize hs1 : applyF lat
            (predArgCmds cfg (cfg.blockTerminator pr.1)
              (cfg.succOperands (cfg.blockTerminator pr.1) pr.2) argLattices) s = a1 at h ⊢
          have hle1 : sle lat s a1.1 := by
            rw [← hs1]
            exact applyF_le lat hl _ _
          have hle2 : sle lat a1.1 s := by
            intro v
            have h2 := blockPredLoop_le cfg lat hl b argLattices rest a1.1 v
            rw [h] at h2
            exact h2
          have he1 : a1.1 = s := sle_antisymm lat hl hle2 hle1
          have hf1 : a1.2 = false := by
            rw [← hs1]
            refine applyF_fix lat hl _ _ ?_
            rw [hs1]
            exact he1
          have hf2 : (blockPredLoop cfg lat b argLattices rest a1.1).2 = false := by
            rw [he1] at h ⊢
            exact ih _ h
          rw [hf1, hf2]
          rfl
        · simp only [hbr, Bool.false_eq_true, if_false] at h ⊢
          exact applyF_fix lat hl _ s h
      · have hedge2 : cfg.edgeLive pr.1 b = false := by
          cases h2 : cfg.edgeLive pr.1 b
          · rfl
          · exact absurd h2 hedge
        simp only [hedge2, Bool.not_false, if_true] at h ⊢
        exact ih _ h

theorem visitOperationF_fix [DecidableEq L] (cfg : Config L) (lat : Lat L) (hl : FLaws lat)
    (op : OpId) (s : State L) (h : (visitOperationF cfg lat op s).1 = s) :
    (visitOperationF cfg lat op s).2 = false := by
  simp only [visitOperationF] at h ⊢
  split_ifs at h ⊢
  · rfl
  · rfl
  · exact vrsF_fix cfg lat hl _ _ _ _ _ s h
  · exact applyF_fix lat hl _ s h
  · exact applyF_fix lat hl _ s h
  · exact applyF_fix lat hl _ s h

theorem visitBlockF_fix [DecidableEq L] (cfg : Config L) (lat : Lat L) (hl : FLaws lat)
    (b : BlockId) (s : State L) (h : (visitBlockF cfg lat b s).1 = s) :
    (visitBlockF cfg lat b s).2 = false := by
  simp only [visitBlockF] at h ⊢
  split_ifs at h ⊢
  · rfl
  · rfl
  · exact applyF_fix lat hl _ s h
  · exact applyF_fix lat hl _ s h
  · exact vrsF_fix cfg lat hl _ _ _ _ _ s h
  · exact applyF_fix lat hl _ s h
  · exact blockPredLoop_fix cfg lat hl _ _ _ s h

theorem visitF_fix [DecidableEq L] (cfg : Config L) (lat : Lat L) (hl : FLaws lat)
    (p : PPoint) (s : State L) (h : (visitF cfg lat p s).1 = s) :
    (visitF cfg lat p s).2 = false := by
  cases p with
  | op o => exact visitOperationF_fix cfg lat hl o s h
  | block b => exact visitBlockF_fix cfg lat hl b s h

/-- C7: assuming the analysis-supplied join is monotone-by-construction
(commutative, associative, idempotent, entry-absorbing), re-running the
forward driver over any sequence of program points on a converged state
yields the identical lattice values and reports no change: every re-visit
of a converged point returns `NoChange`, independent of visitation
order. -/
theorem forward_fixpoint_rerun_nochange [DecidableEq L] (cfg : Config L) (lat : Lat L)
    (hcomm : ∀ a b, lat.join a b = lat.join b a)
    (hassoc : ∀ a b c, lat.join (lat.join a b) c = lat.join a (lat.join b c))
    (hidem : ∀ a, lat.join a a = a)
    (hentry : ∀ a, lat.join lat.entry a = lat.entry)
    (ps : List PPoint) (s : State L)
    (hconv : ∀ p ∈ ps, (visitF cfg lat p s).1 = s) :
    (runF cfg lat ps s).1 = s ∧ (runF cfg lat ps s).2 = false ∧
    ∀ p ∈ ps, (visitF cfg lat p s).2 = false := by
  have hl : FLaws lat := ⟨hcomm, hassoc, hidem, hentry⟩
  clear hcomm hassoc hidem hentry
  induction ps with
  | nil =>
      exact ⟨rfl, rfl, fun p hp => absurd hp (List.not_mem_nil p)⟩
  | cons p ps ih =>
      have hp := hconv p (List.mem_cons_self p ps)
      have hrest : ∀ q ∈ ps, (visitF cfg lat q s).1 = s :=
        fun q hq => hconv q (List.mem_cons_of_mem p hq)
      obtain ⟨ih1, ih2, ih3⟩ := ih hrest
      have hflag : (visitF cfg lat p s).2 = false := visitF_fix cfg lat hl p s hp
      refine ⟨?_, ?_, ?_⟩
      · simp only [runF]
        rw [hp]
        exact ih1
      · simp only [runF]
        rw [hp, hflag, ih2]
        rfl
      · intro q hq
        rcases List.mem_cons.mp hq with h0 | h0
        · subst h0
          exact hflag
        · exact ih3 q h0

/-- C7 witness: on a concrete converged state, running the forward driver
over an operation and a block changes nothing and reports no change. -/
theorem c7_witness :
    (∀ a b, latB.join a b = latB.join b a) ∧
    (∀ a b c, latB.join (latB.join a b) c = latB.join a (latB.join b c)) ∧
    (∀ a, latB.join a a = a) ∧
    (∀ a, latB.join latB.entry a = latB.entry) ∧
    (∀ p ∈ [PPoint.op 0, PPoint.block 0],
      (visitF trivialConfig latB p (fun _ => false)).1 = (fun _ => false)) ∧
    (runF trivialConfig latB [PPoint.op 0, PPoint.block 0] (fun _ => false)).1
      = (fun _ => false) ∧
    (runF trivialConfig latB [PPoint.op 0, PPoint.block 0] (fun _ => false)).2 = false := by
  have hconv : ∀ p ∈ [PPoint.op 0, PPoint.block 0],
      (visitF trivialConfig latB p (fun _ => false)).1 = (fun _ => false) := by
    intro p hp
    rcases List.mem_cons.mp hp with h0 | h0
    · subst h0
      rfl
    · rcases List.mem_cons.mp h0 with h1 | h1
      · subst h1
        rfl
      · cases h1
  have h := forward_fixpoint_rerun_nochange trivialConfig latB
    (by decide) (by decide) (by decide) (by decide)
    [PPoint.op 0, PPoint.block 0] (fun _ => false) hconv
  exact ⟨by decide, by decide, by decide, by decide, hconv, h.1, h.2.1⟩

end SparseDF
